import Mathlib

/-!
Verification of the frame/creative association resolver and the text
line-break detector of the Mazda preview-inspection server (server.js).

The JavaScript source is shallowly embedded: DOM text nodes become lists of
strings, the DOM geometry oracle (Range.getClientRects) becomes an explicit
function parameter, JS Sets and Maps become lists, and the early-return
control flow of the /api/count handler becomes the Except monad.
-/

set_option maxHeartbeats 1000000

namespace Mazda

/-! ## Basic character and string utilities shared by the embedding -/

/-- The JavaScript whitespace class backslash-s, by code point. -/
def isJsWs (c : Char) : Bool :=
  c = ' ' || c = '\t' || c = '\n' || c = '\r' ||
  c.val = 0x0b || c.val = 0x0c || c.val = 0xa0 || c.val = 0x1680 ||
  (0x2000 ≤ c.val && c.val ≤ 0x200a) ||
  c.val = 0x2028 || c.val = 0x2029 || c.val = 0x202f ||
  c.val = 0x205f || c.val = 0x3000 || c.val = 0xfeff

/-- Membership test of a JS Set of strings, modelled as a list. -/
def memId : List String → String → Bool
  | [], _ => false
  | y :: ys, x => x == y || memId ys x

/-- Adding to a JS Set of strings, modelled as a list without duplicates. -/
def insertId (used : List String) (x : String) : List String :=
  if memId used x then used else used ++ [x]

theorem memId_iff (l : List String) (x : String) : memId l x = true ↔ x ∈ l := by
  induction l with
  | nil => simp [memId]
  | cons y ys ih => simp [memId, ih, beq_iff_eq]

theorem mem_insertId (used : List String) (x y : String) :
    y ∈ insertId used x ↔ y ∈ used ∨ y = x := by
  unfold insertId
  split
  · rename_i h
    rw [memId_iff] at h
    constructor
    · exact Or.inl
    · rintro (hy | rfl)
      · exact hy
      · exact h
  · simp

/-- JS String.prototype.indexOf over char lists, starting the search at a
given position; none models the -1 result. -/
def indexOfFrom (s t : List Char) (start : Nat) : Option Nat :=
  (List.range (s.length + 1)).find? (fun i => decide (start ≤ i) && ((s.drop i).take t.length == t))

/-- JS String.prototype.includes. -/
def containsSub (s sub : String) : Bool := (indexOfFrom s.toList sub.toList 0).isSome

/-- JS String.prototype.endsWith. -/
def endsWithStr (s suf : String) : Bool := suf.toList.isSuffixOf s.toList

/-- First maximal digit run of a string: the JS regex match backslash-d-plus. -/
def firstNumber (s : String) : Option String :=
  let ds := (s.toList.dropWhile (fun c => !c.isDigit)).takeWhile (fun c => c.isDigit)
  if ds.isEmpty then none else some (String.mk ds)

/-- Helper for collapseWsRuns: the flag records whether the previous
character belonged to a whitespace run, so each maximal run emits exactly
one space at its first character. -/
def collapseAux : Bool → List Char → List Char
  | _, [] => []
  | prevWs, c :: rest =>
    if isJsWs c then
      if prevWs then collapseAux true rest else ' ' :: collapseAux true rest
    else c :: collapseAux false rest

/-- JS s.replace of every maximal whitespace run by a single space. -/
def collapseWsRuns (l : List Char) : List Char := collapseAux false l

/-- JS String.prototype.trim over char lists. -/
def trimChars (l : List Char) : List Char :=
  ((l.dropWhile isJsWs).reverse.dropWhile isJsWs).reverse

/-- JS String.prototype.trim. -/
def jsTrim (s : String) : String := String.mk (trimChars s.toList)

/-! ## Text line-break detector (buildNormalizedTextAndMap,
createRangeForPhraseRobust, isPhraseSingleLineRobust)

A root element is modelled by the list of its text nodes in document order;
each text node is a string. A normalized character carries its source
position as a pair (text node index, offset inside that node). -/

/-- The text-node walker of buildNormalizedTextAndMap: one entry
(character, node index, offset) per source character, in document order. -/
def flatNodes (nodes : List String) : List (Char × Nat × Nat) :=
  (nodes.enum.map (fun p => p.2.toList.enum.map (fun q => (q.2, p.1, q.1)))).flatten

/-- The while loop of buildNormalizedTextAndMap: the accumulator holds the
normalized characters paired with their mapping entries, together with the
lastWasSpace flag. -/
def normWalk : List (Char × Nat × Nat) → List (Char × Nat × Nat) → Bool → List (Char × Nat × Nat)
  | [], acc, _ => acc
  | (ch, n, i) :: rest, acc, lastWasSpace =>
    if isJsWs ch then
      if lastWasSpace = false ∧ acc ≠ [] then normWalk rest (acc ++ [(' ', n, i)]) true
      else normWalk rest acc lastWasSpace
    else normWalk rest (acc ++ [(ch, n, i)]) false

/-- The leading-space strip of buildNormalizedTextAndMap (slice plus
mapping.shift). -/
def stripLeading (l : List (Char × Nat × Nat)) : List (Char × Nat × Nat) :=
  match l with
  | x :: rest => if x.1 = ' ' then rest else x :: rest
  | [] => []

/-- The trailing-space strip of buildNormalizedTextAndMap (slice plus
mapping.pop). -/
def stripTrailing (l : List (Char × Nat × Nat)) : List (Char × Nat × Nat) :=
  if (l.getLast?).map (fun x => x.1) = some ' ' then l.dropLast else l

/-- buildNormalizedTextAndMap of server.js: normalized characters paired with
their mapping entries. -/
def buildNormalizedTextAndMap (nodes : List String) : List (Char × Nat × Nat) :=
  stripTrailing (stripLeading (normWalk (flatNodes nodes) [] false))

/-- The normalized string of buildNormalizedTextAndMap. -/
def normalizedOf (nodes : List String) : List Char :=
  (buildNormalizedTextAndMap nodes).map (fun x => x.1)

/-- The offset map of buildNormalizedTextAndMap. -/
def mappingOf (nodes : List String) : List (Nat × Nat) :=
  (buildNormalizedTextAndMap nodes).map (fun x => x.2)

/-- The DOM range built by createRangeForPhraseRobust: start and end
(text node index, offset) positions. -/
structure RangeSpec where
  startNode : Nat
  startOffset : Nat
  endNode : Nat
  endOffset : Nat
deriving DecidableEq, Repr

/-- JS array indexing with a possibly negative index. -/
def getAtInt (l : List α) (i : Int) : Option α :=
  if i < 0 then none else l.get? i.toNat

/-- The occurrence-search loop of createRangeForPhraseRobust: the k-th
(0-indexed) match of the target, each search resuming after the previous
match. -/
def findOccAux (search target : List Char) (start : Nat) : Nat → Option Nat
  | 0 =>
    indexOfFrom search target start
  | k + 1 =>
    match indexOfFrom search target start with
    | none => none
    | some idx => findOccAux search target (idx + target.length) k

/-- createRangeForPhraseRobust of server.js. -/
def createRangeForPhraseRobust (nodes : List String) (phrase : String)
    (occurrence : Nat) (caseInsensitive : Bool) : Option RangeSpec :=
  if phrase = "" then none
  else
    let pairs := buildNormalizedTextAndMap nodes
    let normalized := pairs.map (fun x => x.1)
    let mapping := pairs.map (fun x => x.2)
    if normalized.length = 0 then none
    else
      let targetNorm := trimChars (collapseWsRuns phrase.toList)
      let searchNormalized := if caseInsensitive then normalized.map Char.toLower else normalized
      let targetToSearch := if caseInsensitive then targetNorm.map Char.toLower else targetNorm
      match findOccAux searchNormalized targetToSearch 0 occurrence with
      | none => none
      | some idx =>
        match getAtInt mapping (idx : Int), getAtInt mapping ((idx : Int) + targetToSearch.length - 1) with
        | some sm, some em =>
          some { startNode := sm.1, startOffset := sm.2, endNode := em.1, endOffset := em.2 + 1 }
        | _, _ => none

/-- One client rectangle as reported by the browser; its coordinates play no
role in the detector, only the count of rectangles does. -/
structure Rect where
  x : Int
  y : Int
  w : Int
  h : Int
deriving DecidableEq, Repr

/-- The result object of isPhraseSingleLineRobust; the JS null value of
singleLine is the none case. -/
structure LineCheckResult where
  found : Bool
  singleLine : Option Bool
  rectsCount : Nat
  rects : List Rect
deriving DecidableEq, Repr

/-- isPhraseSingleLineRobust of server.js; the DOM geometry oracle
range.getClientRects is the explicit getRects parameter. -/
def isPhraseSingleLineRobust (getRects : RangeSpec → List Rect) (nodes : List String)
    (phrase : String) (occurrence : Nat) (caseInsensitive : Bool) : LineCheckResult :=
  match createRangeForPhraseRobust nodes phrase occurrence caseInsensitive with
  | none => { found := false, singleLine := none, rectsCount := 0, rects := [] }
  | some res =>
    let rectList := getRects res
    let rectsCount := rectList.length
    { found := true, singleLine := some (rectsCount == 1), rectsCount := rectsCount, rects := rectList }

/-! ## Normal-form predicate for the idempotence property of normalization -/

/-- Every whitespace character of the list is a plain space. -/
def allWsSpace : List Char → Bool
  | [] => true
  | c :: rest => (!isJsWs c || c == ' ') && allWsSpace rest

/-- No two adjacent characters are both spaces. -/
def noDoubleSpace : List Char → Bool
  | c1 :: c2 :: rest => !(c1 == ' ' && c2 == ' ') && noDoubleSpace (c2 :: rest)
  | _ => true

/-- Normalized form: whitespace runs already collapsed to single spaces and
no leading or trailing whitespace. -/
def isNormalForm (l : List Char) : Bool :=
  allWsSpace l && noDoubleSpace l &&
  (match l.head? with | some c => !isJsWs c | none => true) &&
  (match l.getLast? with | some c => !isJsWs c | none => true)

/-- The normalized string computed by buildNormalizedTextAndMap for a single
text node. -/
def normalizeText (s : String) : String := String.mk (normalizedOf [s])

/-- The phrase normalization of createRangeForPhraseRobust (collapse
whitespace runs, then trim). -/
def normalizePhrase (s : String) : String := String.mk (trimChars (collapseWsRuns s.toList))

theorem isJsWs_space : isJsWs ' ' = true := by decide

theorem noDoubleSpace_tail {c : Char} {l : List Char}
    (h : noDoubleSpace (c :: l) = true) : noDoubleSpace l = true := by
  cases l with
  | nil => rfl
  | cons d rest =>
    have h2 := h
    unfold noDoubleSpace at h2
    exact (Bool.and_eq_true _ _ |>.mp h2).2

theorem noDoubleSpace_head {l : List Char}
    (h : noDoubleSpace (' ' :: l) = true) : l.head? ≠ some ' ' := by
  cases l with
  | nil => simp
  | cons d rest =>
    unfold noDoubleSpace at h
    have h1 := (Bool.and_eq_true _ _ |>.mp h).1
    simp only [List.head?_cons, ne_eq, Option.some_inj]
    intro hd
    subst hd
    simp at h1

theorem normWalk_eq_append (xs : List (Char × Nat × Nat)) :
    ∀ (acc : List (Char × Nat × Nat)) (lws : Bool),
    allWsSpace (xs.map (fun x => x.1)) = true →
    noDoubleSpace (xs.map (fun x => x.1)) = true →
    (lws = true → (xs.map (fun x => x.1)).head? ≠ some ' ') →
    (acc = [] → (xs.map (fun x => x.1)).head? ≠ some ' ') →
    normWalk xs acc lws = acc ++ xs := by
  induction xs with
  | nil =>
    intro acc lws _ _ _ _
    simp [normWalk]
  | cons x rest ih =>
    obtain ⟨ch, n, i⟩ := x
    intro acc lws hall hnd hlws hacc
    simp only [List.map_cons] at hall hnd hlws hacc
    rw [allWsSpace, Bool.and_eq_true] at hall
    by_cases hws : isJsWs ch = true
    · have hch : ch = ' ' := by
        have h1 := hall.1
        rw [hws] at h1
        simpa using h1
      subst hch
      have hlf : lws = false := by
        cases lws with
        | false => rfl
        | true => exact absurd (by simp : ((' ' :: rest.map (fun x => x.1)).head? = some ' ')) (hlws rfl)
      have hne : acc ≠ [] := by
        intro h0
        exact (hacc h0) (by simp)
      rw [normWalk, if_pos hws, if_pos ⟨hlf, hne⟩]
      rw [ih (acc ++ [(' ', n, i)]) true hall.2 (noDoubleSpace_tail hnd)
        (fun _ => noDoubleSpace_head hnd) (by simp)]
      simp
    · have hwsf : isJsWs ch = false := by
        cases h : isJsWs ch with
        | false => rfl
        | true => exact absurd h hws
      rw [normWalk, hwsf]
      simp only [Bool.false_eq_true, if_false]
      rw [ih (acc ++ [(ch, n, i)]) false hall.2 (noDoubleSpace_tail hnd)
        (by simp) (by simp)]
      simp

theorem dropWhile_eq_self_of_head {p : Char → Bool} {l : List Char}
    (h : ∀ c, l.head? = some c → p c = false) : l.dropWhile p = l := by
  cases l with
  | nil => rfl
  | cons c rest =>
    rw [List.dropWhile_cons, h c rfl]
    simp

theorem collapseAux_normal : ∀ (l : List Char) (prevWs : Bool),
    allWsSpace l = true → noDoubleSpace l = true →
    (prevWs = true → l.head? ≠ some ' ') → collapseAux prevWs l = l := by
  intro l
  induction l with
  | nil => intro prevWs _ _ _; rfl
  | cons c rest ih =>
    intro prevWs hall hnd hprev
    rw [allWsSpace, Bool.and_eq_true] at hall
    by_cases hws : isJsWs c = true
    · have hch : c = ' ' := by
        have h1 := hall.1
        rw [hws] at h1
        simpa using h1
      subst hch
      have hpf : prevWs = false := by
        cases prevWs with
        | false => rfl
        | true => exact absurd (by simp : ((' ' :: rest).head? = some ' ')) (hprev rfl)
      subst hpf
      rw [collapseAux, hws]
      simp only [if_true, Bool.false_eq_true, if_false]
      rw [ih true hall.2 (noDoubleSpace_tail hnd) (fun _ => noDoubleSpace_head hnd)]
    · have hwsf : isJsWs c = false := by
        cases h : isJsWs c with
        | false => rfl
        | true => exact absurd h hws
      rw [collapseAux, hwsf]
      simp only [Bool.false_eq_true, if_false]
      rw [ih false hall.2 (noDoubleSpace_tail hnd) (by simp)]

theorem collapseWsRuns_normal (l : List Char)
    (hall : allWsSpace l = true) (hnd : noDoubleSpace l = true) :
    collapseWsRuns l = l :=
  collapseAux_normal l false hall hnd (by simp)

theorem trimChars_normal {l : List Char}
    (hhead : ∀ c, l.head? = some c → isJsWs c = false)
    (hlast : ∀ c, l.getLast? = some c → isJsWs c = false) : trimChars l = l := by
  unfold trimChars
  rw [dropWhile_eq_self_of_head hhead]
  rw [dropWhile_eq_self_of_head (by
    intro c hc
    rw [List.head?_reverse] at hc
    exact hlast c hc)]
  exact l.reverse_reverse

theorem isNormalForm_parts {l : List Char} (h : isNormalForm l = true) :
    allWsSpace l = true ∧ noDoubleSpace l = true ∧
    (∀ c, l.head? = some c → isJsWs c = false) ∧
    (∀ c, l.getLast? = some c → isJsWs c = false) := by
  unfold isNormalForm at h
  simp only [Bool.and_eq_true] at h
  obtain ⟨⟨⟨h1, h2⟩, h3⟩, h4⟩ := h
  refine ⟨h1, h2, ?_, ?_⟩
  · intro c hc
    rw [hc] at h3
    simpa using h3
  · intro c hc
    rw [hc] at h4
    simpa using h4

theorem flatNodes_single (s : String) :
    flatNodes [s] = s.toList.enum.map (fun q => (q.2, 0, q.1)) := by
  simp [flatNodes]

theorem flatNodes_single_chars (s : String) :
    (flatNodes [s]).map (fun x => x.1) = s.toList := by
  rw [flatNodes_single, List.map_map]
  have : ((fun x : Char × Nat × Nat => x.1) ∘ fun q : Nat × Char => (q.2, 0, q.1)) = Prod.snd := by
    funext q
    rfl
  rw [this, List.enum_map_snd]

theorem buildNormalizedTextAndMap_normal (s : String) (h : isNormalForm s.toList = true) :
    buildNormalizedTextAndMap [s] = flatNodes [s] := by
  obtain ⟨h1, h2, h3, h4⟩ := isNormalForm_parts h
  have hchars := flatNodes_single_chars s
  have hwalk : normWalk (flatNodes [s]) [] false = flatNodes [s] := by
    rw [normWalk_eq_append (flatNodes [s]) [] false (by rw [hchars]; exact h1)
      (by rw [hchars]; exact h2)
      (by intro h0; exact absurd h0 (by simp))
      (by
        intro _
        rw [hchars]
        intro hh
        exact absurd (h3 ' ' hh) (by simp [isJsWs_space]))]
    simp
  have hstripL : stripLeading (flatNodes [s]) = flatNodes [s] := by
    unfold stripLeading
    cases hfl : flatNodes [s] with
    | nil => rfl
    | cons x rest =>
      have hx : (flatNodes [s]).head? = some x := by rw [hfl]; rfl
      have hx1 : x.1 ≠ ' ' := by
        have hhm : (s.toList).head? = some x.1 := by
          rw [← hchars, List.head?_map, hx]
          rfl
        intro hsp
        exact absurd (h3 x.1 hhm) (by rw [hsp]; simp [isJsWs_space])
      show (if x.1 = ' ' then rest else x :: rest) = x :: rest
      rw [if_neg hx1]
  have hstripT : stripTrailing (flatNodes [s]) = flatNodes [s] := by
    unfold stripTrailing
    rw [if_neg]
    intro hcontra
    rw [← List.getLast?_map] at hcontra
    rw [hchars] at hcontra
    exact absurd (h4 ' ' hcontra) (by simp [isJsWs_space])
  unfold buildNormalizedTextAndMap
  rw [hwalk, hstripL, hstripT]

theorem string_mk_toList (s : String) : String.mk s.toList = s := by
  cases s
  rfl

/-- C9, stated over the element-text normalization of
buildNormalizedTextAndMap and the phrase normalization of
createRangeForPhraseRobust: both fix every string already in normalized
form. -/
theorem normalization_idempotent (s : String) (h : isNormalForm s.toList = true) :
    normalizeText s = s ∧ normalizePhrase s = s := by
  obtain ⟨h1, h2, h3, h4⟩ := isNormalForm_parts h
  constructor
  · unfold normalizeText normalizedOf
    rw [buildNormalizedTextAndMap_normal s h, flatNodes_single_chars, string_mk_toList]
  · unfold normalizePhrase
    rw [collapseWsRuns_normal _ h1 h2, trimChars_normal h3 h4, string_mk_toList]

/-- Witness for C9 at a concrete normalized string. -/
theorem normalization_idempotent_witness :
    isNormalForm "MAZDA CX-60".toList = true ∧
    (normalizeText "MAZDA CX-60" = "MAZDA CX-60" ∧ normalizePhrase "MAZDA CX-60" = "MAZDA CX-60") :=
  ⟨by decide, normalization_idempotent "MAZDA CX-60" (by decide)⟩

/-- C1: whenever the detector reports found, the reported line count is the
number of client rectangles of the constructed range, and singleLine holds
exactly when that number is one (two or more rectangles give false). -/
theorem lineCount_eq_clientRects (getRects : RangeSpec → List Rect) (nodes : List String)
    (phrase : String) (occurrence : Nat) (ci : Bool) (spec : RangeSpec)
    (h : createRangeForPhraseRobust nodes phrase occurrence ci = some spec) :
    (isPhraseSingleLineRobust getRects nodes phrase occurrence ci).found = true ∧
    (isPhraseSingleLineRobust getRects nodes phrase occurrence ci).rectsCount = (getRects spec).length ∧
    ((isPhraseSingleLineRobust getRects nodes phrase occurrence ci).singleLine = some true ↔
      (getRects spec).length = 1) ∧
    (2 ≤ (getRects spec).length →
      (isPhraseSingleLineRobust getRects nodes phrase occurrence ci).singleLine = some false) := by
  unfold isPhraseSingleLineRobust
  rw [h]
  refine ⟨rfl, rfl, ?_, ?_⟩
  · simp
  · intro hge
    simp only [Option.some_inj]
    have : ((getRects spec).length == 1) = false := by
      simp only [beq_eq_false_iff_ne, ne_eq]
      omega
    rw [this]

/-- Witness for C1 on a concrete element whose range yields two
rectangles. -/
theorem lineCount_eq_clientRects_witness :
    createRangeForPhraseRobust ["MAZDA CX-60"] "MAZDA CX-60" 0 true =
      some { startNode := 0, startOffset := 0, endNode := 0, endOffset := 11 } ∧
    ((isPhraseSingleLineRobust (fun _ => [⟨0, 0, 5, 5⟩, ⟨0, 5, 5, 5⟩]) ["MAZDA CX-60"] "MAZDA CX-60" 0 true).found = true ∧
     (isPhraseSingleLineRobust (fun _ => [⟨0, 0, 5, 5⟩, ⟨0, 5, 5, 5⟩]) ["MAZDA CX-60"] "MAZDA CX-60" 0 true).rectsCount =
       ((fun (_ : RangeSpec) => [(⟨0, 0, 5, 5⟩ : Rect), ⟨0, 5, 5, 5⟩]) { startNode := 0, startOffset := 0, endNode := 0, endOffset := 11 }).length ∧
     ((isPhraseSingleLineRobust (fun _ => [⟨0, 0, 5, 5⟩, ⟨0, 5, 5, 5⟩]) ["MAZDA CX-60"] "MAZDA CX-60" 0 true).singleLine = some true ↔
       ((fun (_ : RangeSpec) => [(⟨0, 0, 5, 5⟩ : Rect), ⟨0, 5, 5, 5⟩]) { startNode := 0, startOffset := 0, endNode := 0, endOffset := 11 }).length = 1) ∧
     (2 ≤ ((fun (_ : RangeSpec) => [(⟨0, 0, 5, 5⟩ : Rect), ⟨0, 5, 5, 5⟩]) { startNode := 0, startOffset := 0, endNode := 0, endOffset := 11 }).length →
       (isPhraseSingleLineRobust (fun _ => [⟨0, 0, 5, 5⟩, ⟨0, 5, 5, 5⟩]) ["MAZDA CX-60"] "MAZDA CX-60" 0 true).singleLine = some false)) :=
  ⟨by decide, lineCount_eq_clientRects (fun _ => [⟨0, 0, 5, 5⟩, ⟨0, 5, 5, 5⟩]) ["MAZDA CX-60"] "MAZDA CX-60" 0 true
    { startNode := 0, startOffset := 0, endNode := 0, endOffset := 11 } (by decide)⟩

/-- Counterexample to C3 as stated: on a found phrase with zero client
rectangles the detector reports the ordinary singleLine = false verdict,
not a null-equivalent ambiguous value. -/
theorem zeroRects_singleLine_counterexample :
    (isPhraseSingleLineRobust (fun _ => []) ["MAZDA CX-60"] "MAZDA CX-60" 0 true).found = true ∧
    (isPhraseSingleLineRobust (fun _ => []) ["MAZDA CX-60"] "MAZDA CX-60" 0 true).rectsCount = 0 ∧
    (isPhraseSingleLineRobust (fun _ => []) ["MAZDA CX-60"] "MAZDA CX-60" 0 true).singleLine = some false ∧
    (isPhraseSingleLineRobust (fun _ => []) ["MAZDA CX-60"] "MAZDA CX-60" 0 true).singleLine ≠ none := by
  refine ⟨by decide, by decide, by decide, by decide⟩

/-- C3 amended: a found phrase with zero rectangles is reported found with
singleLine = false (and lineCount 0); the null verdict occurs only when the
phrase is not found. -/
theorem zeroRects_singleLine_false (getRects : RangeSpec → List Rect) (nodes : List String)
    (phrase : String) (occurrence : Nat) (ci : Bool)
    (hf : (isPhraseSingleLineRobust getRects nodes phrase occurrence ci).found = true)
    (hz : (isPhraseSingleLineRobust getRects nodes phrase occurrence ci).rectsCount = 0) :
    (isPhraseSingleLineRobust getRects nodes phrase occurrence ci).singleLine = some false := by
  cases h : createRangeForPhraseRobust nodes phrase occurrence ci with
  | none =>
    unfold isPhraseSingleLineRobust at hf
    rw [h] at hf
    simp at hf
  | some spec =>
    have hz2 : (getRects spec).length = 0 := by
      unfold isPhraseSingleLineRobust at hz
      rw [h] at hz
      exact hz
    unfold isPhraseSingleLineRobust
    rw [h]
    show some ((getRects spec).length == 1) = some false
    rw [hz2]
    rfl

/-- Witness for the amended C3 at a concrete zero-rectangle input. -/
theorem zeroRects_singleLine_false_witness :
    ((isPhraseSingleLineRobust (fun _ => []) ["MAZDA CX-5"] "mazda cx-5" 0 true).found = true ∧
     (isPhraseSingleLineRobust (fun _ => []) ["MAZDA CX-5"] "mazda cx-5" 0 true).rectsCount = 0) ∧
    (isPhraseSingleLineRobust (fun _ => []) ["MAZDA CX-5"] "mazda cx-5" 0 true).singleLine = some false :=
  ⟨⟨by decide, by decide⟩,
    zeroRects_singleLine_false (fun _ => []) ["MAZDA CX-5"] "mazda cx-5" 0 true (by decide) (by decide)⟩

/-! ## Per-creative aggregation (/api/count: hlMatches build loop,
validHlMatches filter, brokenModels / allModelStatuses collection) -/

/-- One entry of the per-element model reports (model, found, singleLine,
rectsCount). -/
structure ModelStatus where
  model : String
  found : Bool
  singleLine : Bool
  rectsCount : Nat
deriving DecidableEq, Repr

/-- One processed element as returned by processElements: the JS null values
of brokenModels / allModelStatuses are the empty list (the source only ever
stores null or a non-empty array). -/
structure ElementEntry where
  id : String
  outerHTML : String
  brokenModels : List ModelStatus
  allModelStatuses : List ModelStatus
deriving DecidableEq, Repr

/-- One record of the hlMatches array. -/
structure HlMatch where
  frameUrl : String
  frameName : String
  creativeVariation : String
  -- the source field is named matches; matches is a reserved word in Lean
  matches1 : List ElementEntry
  matches2 : List ElementEntry
  matches3 : List ElementEntry
  matches4 : List ElementEntry
  matchesSL1 : List ElementEntry
  matchesSL2 : List ElementEntry
  matchesSL3 : List ElementEntry
  matchesSL4 : List ElementEntry
deriving DecidableEq, Repr

/-- The eight element categories (frm1..frm4 × HL/SL). -/
inductive Cat
  | hl1 | hl2 | hl3 | hl4 | sl1 | sl2 | sl3 | sl4
deriving DecidableEq, Repr

/-- The per-category element list of a record. -/
def catList : Cat → HlMatch → List ElementEntry
  | .hl1, m => m.matches1
  | .hl2, m => m.matches2
  | .hl3, m => m.matches3
  | .hl4, m => m.matches4
  | .sl1, m => m.matchesSL1
  | .sl2, m => m.matchesSL2
  | .sl3, m => m.matchesSL3
  | .sl4, m => m.matchesSL4

/-- The hasElements test of server.js: some category list is non-empty. -/
def hasElemsHM (m : HlMatch) : Bool :=
  !m.matches1.isEmpty || !m.matches2.isEmpty || !m.matches3.isEmpty || !m.matches4.isEmpty ||
  !m.matchesSL1.isEmpty || !m.matchesSL2.isEmpty || !m.matchesSL3.isEmpty || !m.matchesSL4.isEmpty

/-- Merging a later record into an existing one: the eight element lists are
concatenated, everything else keeps the existing record's values. -/
def mergeRecords (r m : HlMatch) : HlMatch :=
  { r with
    matches1 := r.matches1 ++ m.matches1
    matches2 := r.matches2 ++ m.matches2
    matches3 := r.matches3 ++ m.matches3
    matches4 := r.matches4 ++ m.matches4
    matchesSL1 := r.matchesSL1 ++ m.matchesSL1
    matchesSL2 := r.matchesSL2 ++ m.matchesSL2
    matchesSL3 := r.matchesSL3 ++ m.matchesSL3
    matchesSL4 := r.matchesSL4 ++ m.matchesSL4 }

/-- In-place merge at a found index (the JS mutation of the array entry). -/
def mergeAtIdx (acc : List HlMatch) (i : Nat) (m : HlMatch) : List HlMatch :=
  match acc.get? i with
  | some r => acc.set i (mergeRecords r m)
  | none => acc

/-- One frame's scan result as it enters the hlMatches build loop: the eight
(possibly null, modelled as empty) match lists, the creative variation that
was resolved for the frame, and whether the frame counts as a jvxBase frame. -/
structure FrameResult where
  frameUrl : String
  frameName : String
  creativeVariation : String
  isJvxBaseFrame : Bool
  m1 : List ElementEntry
  m2 : List ElementEntry
  m3 : List ElementEntry
  m4 : List ElementEntry
  s1 : List ElementEntry
  s2 : List ElementEntry
  s3 : List ElementEntry
  s4 : List ElementEntry
deriving DecidableEq, Repr

/-- The hlMatches record pushed for a frame (creativeVariation falls back to
the N/A placeholder when empty). -/
def frToMatch (fr : FrameResult) : HlMatch :=
  { frameUrl := fr.frameUrl
    frameName := fr.frameName
    creativeVariation := if fr.creativeVariation = "" then "N/A" else fr.creativeVariation
    matches1 := fr.m1
    matches2 := fr.m2
    matches3 := fr.m3
    matches4 := fr.m4
    matchesSL1 := fr.s1
    matchesSL2 := fr.s2
    matchesSL3 := fr.s3
    matchesSL4 := fr.s4 }

/-- Label validity as used inside the frame loop (truthy, not the N/A
placeholder). -/
def validCv1 (cv : String) : Bool := !(cv == "") && !(cv == "N/A")

/-- JS Array.prototype.findIndex, with none for the -1 result. -/
def findIdxJs (p : α → Bool) : List α → Option Nat
  | [] => none
  | x :: xs => if p x then some 0 else (findIdxJs p xs).map (· + 1)

/-- One iteration of the hlMatches build loop (server.js lines 1102-1137). -/
def phase1Step (acc : List HlMatch) (fr : FrameResult) : List HlMatch :=
  if fr.isJvxBaseFrame || hasElemsHM (frToMatch fr) then
    match (if validCv1 fr.creativeVariation then
             findIdxJs (fun m => m.creativeVariation == fr.creativeVariation) acc
           else none) with
    | some i => mergeAtIdx acc i (frToMatch fr)
    | none => acc ++ [frToMatch fr]
  else acc

/-- The hlMatches build loop over all frames. -/
def phase1Aux (acc : List HlMatch) : List FrameResult → List HlMatch
  | [] => acc
  | fr :: rest => phase1Aux (phase1Step acc fr) rest

/-- The hlMatches array produced by the frame loop. -/
def phase1 (frs : List FrameResult) : List HlMatch := phase1Aux [] frs

/-- Label validity as used by the validHlMatches filter (also rejects
whitespace-only labels). -/
def validCv2 (cv : String) : Bool :=
  !(cv == "") && !(cv == "N/A") && !(jsTrim cv == "")

/-- One iteration of the validHlMatches filter (server.js lines 1199-1240):
the accumulator is the filtered list plus the seen-creative-variations set. -/
def validStepFn (acc : List HlMatch) (seen : List String) (m : HlMatch) :
    List HlMatch × List String :=
  if validCv2 m.creativeVariation then
    if memId seen m.creativeVariation then
      match findIdxJs (fun r => r.creativeVariation == m.creativeVariation) acc with
      | some i => (mergeAtIdx acc i m, seen)
      | none => (acc, seen)
    else (acc ++ [m], seen ++ [m.creativeVariation])
  else if hasElemsHM m then (acc ++ [m], seen) else (acc, seen)

/-- The validHlMatches filter loop. -/
def validAux (acc : List HlMatch) (seen : List String) : List HlMatch → List HlMatch
  | [] => acc
  | m :: rest => validAux (validStepFn acc seen m).1 (validStepFn acc seen m).2 rest

/-- The validHlMatches array computed from hlMatches. -/
def validFilter (l : List HlMatch) : List HlMatch := validAux [] [] l

/-- The whole reachable aggregation pipeline: frame loop, then the
validHlMatches filter. -/
def aggregate (frs : List FrameResult) : List HlMatch := validFilter (phase1 frs)

/-- The multiset of elements a single record contributes to label v in
category c. -/
def elemsAt (v : String) (c : Cat) (r : HlMatch) : Multiset ElementEntry :=
  if r.creativeVariation = v then (catList c r : Multiset ElementEntry) else 0

/-- The multiset of elements carried for label v in category c by a list of
records. -/
def contentOf (v : String) (c : Cat) (L : List HlMatch) : Multiset ElementEntry :=
  (L.map (elemsAt v c)).sum

/-- The multiset of elements collected for label v in category c by a list
of per-frame scan results. -/
def frContentOf (v : String) (c : Cat) (frs : List FrameResult) : Multiset ElementEntry :=
  (frs.map (fun fr => elemsAt v c (frToMatch fr))).sum

/-- The creative-variation labels of a record list. -/
def labelsOf (L : List HlMatch) : List String := L.map (fun r => r.creativeVariation)

/-- The number of records carrying label v. -/
def countLabel (v : String) (L : List HlMatch) : Nat :=
  ((labelsOf L).filter (fun w => w == v)).length

/-! ## Structural lemmas about the aggregation pipeline -/

theorem catList_merge (c : Cat) (r m : HlMatch) :
    catList c (mergeRecords r m) = catList c r ++ catList c m := by
  cases c <;> rfl

theorem label_merge (r m : HlMatch) :
    (mergeRecords r m).creativeVariation = r.creativeVariation := rfl

theorem catList_eq_nil_of_not_hasElems {m : HlMatch} (h : hasElemsHM m = false) (c : Cat) :
    catList c m = [] := by
  unfold hasElemsHM at h
  simp only [Bool.or_eq_false_iff, Bool.not_eq_false', List.isEmpty_iff] at h
  obtain ⟨⟨⟨⟨⟨⟨⟨h1, h2⟩, h3⟩, h4⟩, h5⟩, h6⟩, h7⟩, h8⟩ := h
  cases c <;> simp [catList, h1, h2, h3, h4, h5, h6, h7, h8]

theorem elemsAt_eq_zero_of_not_hasElems {m : HlMatch} (h : hasElemsHM m = false)
    (v : String) (c : Cat) : elemsAt v c m = 0 := by
  unfold elemsAt
  rw [catList_eq_nil_of_not_hasElems h c]
  split <;> rfl

theorem elemsAt_merge (v : String) (c : Cat) (r m : HlMatch) :
    elemsAt v c (mergeRecords r m) =
      elemsAt v c r + (if r.creativeVariation = v then (catList c m : Multiset ElementEntry) else 0) := by
  unfold elemsAt
  rw [label_merge, catList_merge]
  split
  · rw [← Multiset.coe_add]
  · rfl

theorem contentOf_nil (v : String) (c : Cat) : contentOf v c [] = 0 := rfl

theorem contentOf_cons (v : String) (c : Cat) (m : HlMatch) (L : List HlMatch) :
    contentOf v c (m :: L) = elemsAt v c m + contentOf v c L := by
  simp [contentOf]

theorem contentOf_append (v : String) (c : Cat) (l1 l2 : List HlMatch) :
    contentOf v c (l1 ++ l2) = contentOf v c l1 + contentOf v c l2 := by
  simp [contentOf]

theorem frContentOf_nil (v : String) (c : Cat) : frContentOf v c [] = 0 := rfl

theorem frContentOf_cons (v : String) (c : Cat) (fr : FrameResult) (rest : List FrameResult) :
    frContentOf v c (fr :: rest) = elemsAt v c (frToMatch fr) + frContentOf v c rest := by
  simp [frContentOf]

theorem labelsOf_append (l1 l2 : List HlMatch) :
    labelsOf (l1 ++ l2) = labelsOf l1 ++ labelsOf l2 := by
  simp [labelsOf]

theorem contentOf_set (v : String) (c : Cat) :
    ∀ (acc : List HlMatch) (i : Nat) (r a : HlMatch), acc.get? i = some r →
    contentOf v c (acc.set i a) + elemsAt v c r = contentOf v c acc + elemsAt v c a := by
  intro acc
  induction acc with
  | nil => intro i r a h; simp at h
  | cons x xs ih =>
    intro i r a h
    cases i with
    | zero =>
      simp only [List.get?_cons_zero, Option.some_inj] at h
      subst h
      simp only [List.set_cons_zero, contentOf_cons]
      abel
    | succ j =>
      simp only [List.get?_cons_succ] at h
      simp only [List.set_cons_succ, contentOf_cons]
      rw [add_assoc, ih j r a h, ← add_assoc]

theorem labelsOf_set (acc : List HlMatch) :
    ∀ (i : Nat) (r a : HlMatch), acc.get? i = some r →
    a.creativeVariation = r.creativeVariation →
    labelsOf (acc.set i a) = labelsOf acc := by
  induction acc with
  | nil => intro i r a h _; simp at h
  | cons x xs ih =>
    intro i r a h hlab
    cases i with
    | zero =>
      simp only [List.get?_cons_zero, Option.some_inj] at h
      subst h
      simp [labelsOf, hlab]
    | succ j =>
      simp only [List.get?_cons_succ] at h
      simp only [List.set_cons_succ, labelsOf, List.map_cons]
      have := ih j r a h hlab
      simp only [labelsOf] at this
      rw [this]

theorem labelsOf_mergeAtIdx (acc : List HlMatch) (i : Nat) (m : HlMatch) :
    labelsOf (mergeAtIdx acc i m) = labelsOf acc := by
  unfold mergeAtIdx
  cases h : acc.get? i with
  | none => rfl
  | some r => exact labelsOf_set acc i r _ h (label_merge r m)

theorem contentOf_mergeAtIdx (v : String) (c : Cat) (acc : List HlMatch) (i : Nat)
    (m r : HlMatch) (h : acc.get? i = some r) :
    contentOf v c (mergeAtIdx acc i m) =
      contentOf v c acc + (if r.creativeVariation = v then (catList c m : Multiset ElementEntry) else 0) := by
  unfold mergeAtIdx
  rw [h]
  have h1 := contentOf_set v c acc i r (mergeRecords r m) h
  rw [elemsAt_merge] at h1
  rw [← add_assoc, add_comm (contentOf v c acc) (elemsAt v c r), add_assoc,
    add_comm (elemsAt v c r)] at h1
  exact add_right_cancel h1

theorem findIdxJs_spec (p : α → Bool) :
    ∀ (l : List α) (i : Nat), findIdxJs p l = some i →
    ∃ r, l.get? i = some r ∧ p r = true := by
  intro l
  induction l with
  | nil => intro i h; simp [findIdxJs] at h
  | cons x xs ih =>
    intro i h
    rw [findIdxJs] at h
    by_cases hp : p x = true
    · rw [if_pos hp] at h
      simp only [Option.some_inj] at h
      subst h
      exact ⟨x, rfl, hp⟩
    · rw [if_neg hp] at h
      rw [Option.map_eq_some'] at h
      obtain ⟨j, hj, hij⟩ := h
      obtain ⟨r, hget, hpr⟩ := ih j hj
      subst hij
      exact ⟨r, by simpa using hget, hpr⟩

theorem findIdxJs_isSome_of_mem (p : α → Bool) :
    ∀ (l : List α) (x : α), x ∈ l → p x = true → ∃ i, findIdxJs p l = some i := by
  intro l
  induction l with
  | nil => intro x hx; simp at hx
  | cons y ys ih =>
    intro x hx hp
    rw [findIdxJs]
    by_cases hy : p y = true
    · exact ⟨0, by rw [if_pos hy]⟩
    · rw [if_neg hy]
      rcases List.mem_cons.mp hx with rfl | hx2
      · exact absurd hp hy
      · obtain ⟨j, hj⟩ := ih x hx2 hp
        exact ⟨j + 1, by rw [hj]; rfl⟩

/-! ## Content preservation and label uniqueness of the aggregation -/

theorem labels_iff_exists (v : String) (L : List HlMatch) :
    v ∈ labelsOf L ↔ ∃ r ∈ L, r.creativeVariation = v := by
  unfold labelsOf
  rw [List.mem_map]

theorem phase1Step_content (v : String) (c : Cat) (acc : List HlMatch) (fr : FrameResult) :
    contentOf v c (phase1Step acc fr) = contentOf v c acc + elemsAt v c (frToMatch fr) := by
  unfold phase1Step
  by_cases hcond : (fr.isJvxBaseFrame || hasElemsHM (frToMatch fr)) = true
  · rw [if_pos hcond]
    by_cases hv : validCv1 fr.creativeVariation = true
    · rw [if_pos hv]
      cases hfind : findIdxJs (fun m => m.creativeVariation == fr.creativeVariation) acc with
      | none =>
        simp only []
        rw [contentOf_append, contentOf_cons, contentOf_nil, add_zero]
      | some i =>
        simp only []
        obtain ⟨r, hget, hpr⟩ := findIdxJs_spec _ acc i hfind
        rw [contentOf_mergeAtIdx v c acc i (frToMatch fr) r hget]
        have hrcv : r.creativeVariation = fr.creativeVariation := by
          simpa [beq_iff_eq] using hpr
        have hcv : fr.creativeVariation ≠ "" := by
          unfold validCv1 at hv
          simp only [Bool.and_eq_true, Bool.not_eq_true', beq_eq_false_iff_ne, ne_eq] at hv
          exact hv.1
        have hlab : (frToMatch fr).creativeVariation = fr.creativeVariation := by
          simp [frToMatch, hcv]
        congr 1
        unfold elemsAt
        rw [hrcv, hlab]
    · rw [if_neg hv]
      simp only []
      rw [contentOf_append, contentOf_cons, contentOf_nil, add_zero]
  · rw [if_neg hcond]
    have hne : hasElemsHM (frToMatch fr) = false := by
      rcases Bool.or_eq_false_iff.mp (Bool.not_eq_true _ |>.mp hcond) with ⟨_, h2⟩
      exact h2
    rw [elemsAt_eq_zero_of_not_hasElems hne, add_zero]

theorem phase1Aux_content (v : String) (c : Cat) :
    ∀ (frs : List FrameResult) (acc : List HlMatch),
    contentOf v c (phase1Aux acc frs) = contentOf v c acc + frContentOf v c frs := by
  intro frs
  induction frs with
  | nil => intro acc; rw [phase1Aux, frContentOf_nil, add_zero]
  | cons fr rest ih =>
    intro acc
    rw [phase1Aux, ih, phase1Step_content, frContentOf_cons, add_assoc]

theorem phase1_content (v : String) (c : Cat) (frs : List FrameResult) :
    contentOf v c (phase1 frs) = frContentOf v c frs := by
  unfold phase1
  rw [phase1Aux_content, contentOf_nil, zero_add]

theorem validAux_content (v : String) (c : Cat) :
    ∀ (L acc : List HlMatch) (seen : List String),
    (∀ w, memId seen w = true → w ∈ labelsOf acc) →
    contentOf v c (validAux acc seen L) = contentOf v c acc + contentOf v c L := by
  intro L
  induction L with
  | nil => intro acc seen _; rw [validAux, contentOf_nil, add_zero]
  | cons m rest ih =>
    intro acc seen hinv
    rw [validAux, contentOf_cons]
    by_cases hv : validCv2 m.creativeVariation = true
    · by_cases hs : memId seen m.creativeVariation = true
      · have hexr : ∃ r ∈ acc, r.creativeVariation = m.creativeVariation :=
          (labels_iff_exists _ _).mp (hinv _ hs)
        obtain ⟨r0, hr0, hr0l⟩ := hexr
        obtain ⟨i, hfind⟩ := findIdxJs_isSome_of_mem
          (fun r => r.creativeVariation == m.creativeVariation) acc r0 hr0 (by simp [hr0l])
        have hstep : validStepFn acc seen m = (mergeAtIdx acc i m, seen) := by
          unfold validStepFn
          rw [if_pos hv, if_pos hs, hfind]
        rw [hstep]
        obtain ⟨r, hget, hpr⟩ := findIdxJs_spec _ acc i hfind
        have hinv2 : ∀ w, memId seen w = true → w ∈ labelsOf (mergeAtIdx acc i m) := by
          intro w hw
          rw [labelsOf_mergeAtIdx]
          exact hinv w hw
        rw [ih (mergeAtIdx acc i m) seen hinv2]
        rw [contentOf_mergeAtIdx v c acc i m r hget]
        have hrcv : r.creativeVariation = m.creativeVariation := by
          simpa [beq_iff_eq] using hpr
        have : (if r.creativeVariation = v then (catList c m : Multiset ElementEntry) else 0) =
            elemsAt v c m := by
          unfold elemsAt
          rw [hrcv]
        rw [this, add_assoc]
      · have hstep : validStepFn acc seen m =
            (acc ++ [m], seen ++ [m.creativeVariation]) := by
          unfold validStepFn
          rw [if_pos hv, if_neg (by simp [hs])]
        rw [hstep]
        have hinv2 : ∀ w, memId (seen ++ [m.creativeVariation]) w = true →
            w ∈ labelsOf (acc ++ [m]) := by
          intro w hw
          rw [memId_iff, List.mem_append] at hw
          rw [labelsOf_append, List.mem_append]
          rcases hw with hw | hw
          · exact Or.inl (hinv w ((memId_iff seen w).mpr hw))
          · right
            simp only [List.mem_singleton] at hw
            simp [labelsOf, hw]
        rw [ih (acc ++ [m]) _ hinv2, contentOf_append, contentOf_cons, contentOf_nil,
          add_zero, add_assoc]
    · by_cases he : hasElemsHM m = true
      · have hstep : validStepFn acc seen m = (acc ++ [m], seen) := by
          unfold validStepFn
          rw [if_neg (by simp [hv]), if_pos he]
        rw [hstep]
        have hinv2 : ∀ w, memId seen w = true → w ∈ labelsOf (acc ++ [m]) := by
          intro w hw
          rw [labelsOf_append, List.mem_append]
          exact Or.inl (hinv w hw)
        rw [ih (acc ++ [m]) seen hinv2, contentOf_append, contentOf_cons, contentOf_nil,
          add_zero, add_assoc]
      · have hstep : validStepFn acc seen m = (acc, seen) := by
          unfold validStepFn
          rw [if_neg (by simp [hv]), if_neg (by simp [he])]
        rw [hstep]
        rw [ih acc seen hinv]
        rw [elemsAt_eq_zero_of_not_hasElems (Bool.not_eq_true _ |>.mp he) v c]
        rw [zero_add]

theorem validFilter_content (v : String) (c : Cat) (L : List HlMatch) :
    contentOf v c (validFilter L) = contentOf v c L := by
  unfold validFilter
  rw [validAux_content v c L [] [] (by intro w hw; simp [memId] at hw)]
  rw [contentOf_nil, zero_add]

theorem aggregate_content (v : String) (c : Cat) (frs : List FrameResult) :
    contentOf v c (aggregate frs) = frContentOf v c frs := by
  unfold aggregate
  rw [validFilter_content, phase1_content]

theorem countLabel_append (v : String) (l1 l2 : List HlMatch) :
    countLabel v (l1 ++ l2) = countLabel v l1 + countLabel v l2 := by
  simp [countLabel, labelsOf]

theorem countLabel_mergeAtIdx (v : String) (acc : List HlMatch) (i : Nat) (m : HlMatch) :
    countLabel v (mergeAtIdx acc i m) = countLabel v acc := by
  unfold countLabel
  rw [labelsOf_mergeAtIdx]

theorem countLabel_singleton (v : String) (m : HlMatch) :
    countLabel v [m] = if m.creativeVariation == v then 1 else 0 := by
  unfold countLabel labelsOf
  by_cases h : (m.creativeVariation == v) = true
  · simp [h]
  · simp only [Bool.not_eq_true] at h
    simp [h]

theorem validAux_countLabel (v : String) (hv : validCv2 v = true) :
    ∀ (L acc : List HlMatch) (seen : List String),
    countLabel v acc = (if memId seen v = true then 1 else 0) →
    countLabel v (validAux acc seen L) ≤ 1 := by
  intro L
  induction L with
  | nil =>
    intro acc seen hcnt
    rw [validAux, hcnt]
    split <;> omega
  | cons m rest ih =>
    intro acc seen hcnt
    rw [validAux]
    by_cases hvm : validCv2 m.creativeVariation = true
    · by_cases hs : memId seen m.creativeVariation = true
      · cases hfind : findIdxJs (fun r => r.creativeVariation == m.creativeVariation) acc with
        | some i =>
          have hstep : validStepFn acc seen m = (mergeAtIdx acc i m, seen) := by
            unfold validStepFn
            rw [if_pos hvm, if_pos hs, hfind]
          rw [hstep]
          exact ih (mergeAtIdx acc i m) seen (by rw [countLabel_mergeAtIdx]; exact hcnt)
        | none =>
          have hstep : validStepFn acc seen m = (acc, seen) := by
            unfold validStepFn
            rw [if_pos hvm, if_pos hs, hfind]
          rw [hstep]
          exact ih acc seen hcnt
      · have hstep : validStepFn acc seen m =
            (acc ++ [m], seen ++ [m.creativeVariation]) := by
          unfold validStepFn
          rw [if_pos hvm, if_neg (by simp [hs])]
        rw [hstep]
        apply ih
        simp only []
        rw [countLabel_append, countLabel_singleton]
        by_cases heq : m.creativeVariation = v
        · subst heq
          rw [hcnt, if_neg (by simp [hs])]
          have hmid : memId (seen ++ [m.creativeVariation]) m.creativeVariation = true := by
            rw [memId_iff]
            simp
          rw [hmid]
          simp
        · have h1 : (m.creativeVariation == v) = false := by
            simp [heq]
          have h2 : memId (seen ++ [m.creativeVariation]) v = memId seen v := by
            by_cases hz : v ∈ seen
            · rw [(memId_iff _ _).mpr hz,
                (memId_iff _ _).mpr (by simp [hz] : v ∈ seen ++ [m.creativeVariation])]
            · have ha : memId seen v = false := by
                rw [← Bool.not_eq_true, memId_iff]
                exact hz
              have hb : memId (seen ++ [m.creativeVariation]) v = false := by
                rw [← Bool.not_eq_true, memId_iff]
                simp only [List.mem_append, List.mem_singleton]
                rintro (hc | hc)
                · exact hz hc
                · exact heq hc.symm
              rw [ha, hb]
          rw [h1, h2, hcnt]
          simp
    · by_cases he : hasElemsHM m = true
      · have hstep : validStepFn acc seen m = (acc ++ [m], seen) := by
          unfold validStepFn
          rw [if_neg (by simp [hvm]), if_pos he]
        rw [hstep]
        apply ih
        rw [countLabel_append, countLabel_singleton]
        have hne : (m.creativeVariation == v) = false := by
          simp only [beq_eq_false_iff_ne, ne_eq]
          intro heq
          rw [heq] at hvm
          exact hvm hv
        rw [hne]
        simp [hcnt]
      · have hstep : validStepFn acc seen m = (acc, seen) := by
          unfold validStepFn
          rw [if_neg (by simp [hvm]), if_neg (by simp [he])]
        rw [hstep]
        exact ih acc seen hcnt

theorem validFilter_countLabel (v : String) (hv : validCv2 v = true) (L : List HlMatch) :
    countLabel v (validFilter L) ≤ 1 := by
  unfold validFilter
  exact validAux_countLabel v hv L [] [] (by simp [countLabel, labelsOf, memId])

theorem exists_mem_cons_hm {P : HlMatch → Prop} (m : HlMatch) (l : List HlMatch) :
    (∃ x ∈ m :: l, P x) ↔ P m ∨ ∃ x ∈ l, P x := by
  constructor
  · rintro ⟨x, hx, hp⟩
    rcases List.mem_cons.mp hx with rfl | hx2
    · exact Or.inl hp
    · exact Or.inr ⟨x, hx2, hp⟩
  · rintro (hp | ⟨x, hx, hp⟩)
    · exact ⟨m, List.mem_cons_self m l, hp⟩
    · exact ⟨x, List.mem_cons_of_mem m hx, hp⟩

theorem mem_labels_validAux (v : String) :
    ∀ (L acc : List HlMatch) (seen : List String),
    (∀ w, memId seen w = true → w ∈ labelsOf acc) →
    (v ∈ labelsOf (validAux acc seen L) ↔
      v ∈ labelsOf acc ∨
        ∃ m ∈ L, m.creativeVariation = v ∧ (validCv2 v = true ∨ hasElemsHM m = true)) := by
  intro L
  induction L with
  | nil =>
    intro acc seen _
    rw [validAux]
    simp
  | cons m rest ih =>
    intro acc seen hinv
    rw [validAux, exists_mem_cons_hm]
    by_cases hvm : validCv2 m.creativeVariation = true
    · by_cases hs : memId seen m.creativeVariation = true
      · have hpair : labelsOf ((validStepFn acc seen m).1) = labelsOf acc ∧
            (validStepFn acc seen m).2 = seen := by
          unfold validStepFn
          rw [if_pos hvm, if_pos hs]
          cases findIdxJs (fun r => r.creativeVariation == m.creativeVariation) acc with
          | some i => exact ⟨labelsOf_mergeAtIdx acc i m, rfl⟩
          | none => exact ⟨rfl, rfl⟩
        rw [ih _ _ (by rw [hpair.1, hpair.2]; exact hinv), hpair.1]
        have habs : m.creativeVariation = v → v ∈ labelsOf acc := by
          intro hveq
          rw [← hveq]
          exact hinv _ hs
        constructor
        · rintro (h | h)
          · exact Or.inl h
          · exact Or.inr (Or.inr h)
        · rintro (h | ⟨hcv, _⟩ | h)
          · exact Or.inl h
          · exact Or.inl (habs hcv)
          · exact Or.inr h
      · have hstep : validStepFn acc seen m =
            (acc ++ [m], seen ++ [m.creativeVariation]) := by
          unfold validStepFn
          rw [if_pos hvm, if_neg (by simp [hs])]
        rw [hstep]
        have hinv2 : ∀ w, memId (seen ++ [m.creativeVariation]) w = true →
            w ∈ labelsOf (acc ++ [m]) := by
          intro w hw
          rw [memId_iff, List.mem_append] at hw
          rw [labelsOf_append, List.mem_append]
          rcases hw with hw | hw
          · exact Or.inl (hinv w ((memId_iff seen w).mpr hw))
          · right
            simp only [List.mem_singleton] at hw
            simp [labelsOf, hw]
        rw [ih _ _ hinv2, labelsOf_append]
        simp only [List.mem_append]
        have hlab1 : v ∈ labelsOf [m] ↔ v = m.creativeVariation := by
          simp [labelsOf]
        rw [hlab1]
        constructor
        · rintro ((h | h) | h)
          · exact Or.inl h
          · exact Or.inr (Or.inl ⟨h.symm, Or.inl (by rw [h]; exact hvm)⟩)
          · exact Or.inr (Or.inr h)
        · rintro (h | ⟨hcv, _⟩ | h)
          · exact Or.inl (Or.inl h)
          · exact Or.inl (Or.inr hcv.symm)
          · exact Or.inr h
    · by_cases he : hasElemsHM m = true
      · have hstep : validStepFn acc seen m = (acc ++ [m], seen) := by
          unfold validStepFn
          rw [if_neg (by simp [hvm]), if_pos he]
        rw [hstep]
        have hinv2 : ∀ w, memId seen w = true → w ∈ labelsOf (acc ++ [m]) := by
          intro w hw
          rw [labelsOf_append, List.mem_append]
          exact Or.inl (hinv w hw)
        rw [ih _ _ hinv2, labelsOf_append]
        simp only [List.mem_append]
        have hlab1 : v ∈ labelsOf [m] ↔ v = m.creativeVariation := by
          simp [labelsOf]
        rw [hlab1]
        constructor
        · rintro ((h | h) | h)
          · exact Or.inl h
          · exact Or.inr (Or.inl ⟨h.symm, Or.inr he⟩)
          · exact Or.inr (Or.inr h)
        · rintro (h | ⟨hcv, _⟩ | h)
          · exact Or.inl (Or.inl h)
          · exact Or.inl (Or.inr hcv.symm)
          · exact Or.inr h
      · have hstep : validStepFn acc seen m = (acc, seen) := by
          unfold validStepFn
          rw [if_neg (by simp [hvm]), if_neg (by simp [he])]
        rw [hstep]
        rw [ih _ _ hinv]
        constructor
        · rintro (h | h)
          · exact Or.inl h
          · exact Or.inr (Or.inr h)
        · rintro (h | ⟨hcv, hor⟩ | h)
          · exact Or.inl h
          · exfalso
            rcases hor with hval | hel
            · rw [← hcv] at hval
              exact hvm hval
            · exact he hel
          · exact Or.inr h

theorem mem_labels_validFilter (v : String) (L : List HlMatch) :
    v ∈ labelsOf (validFilter L) ↔
      ∃ m ∈ L, m.creativeVariation = v ∧ (validCv2 v = true ∨ hasElemsHM m = true) := by
  unfold validFilter
  rw [mem_labels_validAux v L [] [] (by intro w hw; simp [memId] at hw)]
  simp [labelsOf]

/-- C10: merging the per-frame record lists A then B, or B then A, through
the validHlMatches aggregation yields the same labels and, for every label
and category, the same multiset of elements. -/
theorem aggregation_commutative (A B : List HlMatch) :
    (∀ v c, contentOf v c (validFilter (A ++ B)) = contentOf v c (validFilter (B ++ A))) ∧
    (∀ v, v ∈ labelsOf (validFilter (A ++ B)) ↔ v ∈ labelsOf (validFilter (B ++ A))) := by
  constructor
  · intro v c
    rw [validFilter_content, validFilter_content, contentOf_append, contentOf_append, add_comm]
  · intro v
    rw [mem_labels_validFilter, mem_labels_validFilter]
    constructor
    · rintro ⟨m, hm, hp⟩
      exact ⟨m, List.mem_append.mpr (Or.symm (List.mem_append.mp hm)), hp⟩
    · rintro ⟨m, hm, hp⟩
      exact ⟨m, List.mem_append.mpr (Or.symm (List.mem_append.mp hm)), hp⟩

/-- C7: for every valid (non-empty, non-placeholder) label the aggregation
produces at most one record, and that record carries the concatenation of
the element lists of all frames resolving to that label. -/
theorem same_label_single_record (frs : List FrameResult) (v : String)
    (hv : validCv2 v = true) :
    countLabel v (aggregate frs) ≤ 1 ∧
    ∀ c, contentOf v c (aggregate frs) = frContentOf v c frs := by
  constructor
  · unfold aggregate
    exact validFilter_countLabel v hv (phase1 frs)
  · intro c
    exact aggregate_content v c frs

/-- A concrete element entry shared by the aggregation scenarios. -/
def elemA : ElementEntry :=
  { id := "frm1_HL_a", outerHTML := "", brokenModels := [], allModelStatuses := [] }

/-- A frame scan result carrying elemA under the label Var_1. -/
def frOne : FrameResult :=
  { frameUrl := "u1", frameName := "jvxBase_1", creativeVariation := "Var_1",
    isJvxBaseFrame := true, m1 := [elemA], m2 := [], m3 := [], m4 := [],
    s1 := [], s2 := [], s3 := [], s4 := [] }

/-- A second frame whose document contains an element with the same id. -/
def frTwo : FrameResult :=
  { frameUrl := "u2", frameName := "jvxBase_2", creativeVariation := "Var_1",
    isJvxBaseFrame := true, m1 := [elemA], m2 := [], m3 := [], m4 := [],
    s1 := [], s2 := [], s3 := [], s4 := [] }

/-- Witness for C7 at the two concrete frames sharing the label Var_1. -/
theorem same_label_single_record_witness :
    validCv2 "Var_1" = true ∧
    (countLabel "Var_1" (aggregate [frOne, frTwo]) ≤ 1 ∧
     ∀ c, contentOf "Var_1" c (aggregate [frOne, frTwo]) = frContentOf "Var_1" c [frOne, frTwo]) :=
  ⟨by decide, same_label_single_record [frOne, frTwo] "Var_1" (by decide)⟩

/-- Counterexample to C6 as stated: the reachable pipeline performs no
cross-frame dedup by id, so an id collected from two frames appears twice in
the concatenated per-category list of the final output. -/
theorem duplicate_id_across_frames_counterexample :
    (aggregate [frOne, frTwo]).map (fun m => m.matches1.map (fun e => e.id)) =
      [["frm1_HL_a", "frm1_HL_a"]] := by decide

/-- C6 amended: the reachable aggregation deduplicates nothing; it preserves
every collected occurrence per label and category (the id-dedup of the
source exists only in the unreachable code after the first return). -/
theorem aggregate_keeps_every_occurrence (frs : List FrameResult) (v : String) (c : Cat) :
    contentOf v c (aggregate frs) = frContentOf v c frs :=
  aggregate_content v c frs

/-! ## The /api/count response (first return) and the regex fallback -/

/-- One marker iframe entry of the frames output. -/
structure JvxFrame where
  id : String
  src : String
deriving DecidableEq, Repr

/-- One flattened entry of brokenModels / allModelStatuses (the former
stores the broken subset, the latter every found model; the source key is
brokenModels respectively modelStatuses, here uniformly statuses). -/
structure StatusEntry where
  creativeVariation : String
  elementId : String
  elementType : String
  statuses : List ModelStatus
  outerHTML : String
deriving DecidableEq, Repr

/-- The HL/SL element-type tag derived from the element id. -/
def elementTypeOf (id : String) : String :=
  if id ≠ "" && containsSub id "_HL_" then "HL" else "SL"

/-- The concatenation of the eight per-category lists of one record. -/
def allElementArrays (m : HlMatch) : List ElementEntry :=
  m.matches1 ++ m.matches2 ++ m.matches3 ++ m.matches4 ++
  m.matchesSL1 ++ m.matchesSL2 ++ m.matchesSL3 ++ m.matchesSL4

/-- The per-record flattening loop shared by the brokenModels and
allModelStatuses collectors; getLs selects which per-element list is
reported. -/
def collectFrom (m : HlMatch) (getLs : ElementEntry → List ModelStatus) : List StatusEntry :=
  (allElementArrays m).filterMap (fun e =>
    if getLs e ≠ [] then
      some { creativeVariation := if m.creativeVariation = "" then "N/A" else m.creativeVariation
             elementId := if e.id = "" then "Unknown" else e.id
             elementType := elementTypeOf e.id
             statuses := getLs e
             outerHTML := e.outerHTML }
    else none)

/-- The brokenModels output list. -/
def collectBroken (L : List HlMatch) : List StatusEntry :=
  (L.map (fun m => collectFrom m (fun e => e.brokenModels))).flatten

/-- The allModelStatuses output list. -/
def collectAllStatuses (L : List HlMatch) : List StatusEntry :=
  (L.map (fun m => collectFrom m (fun e => e.allModelStatuses))).flatten

/-- The JSON success response of /api/count. -/
structure ApiResponse where
  ok : Bool
  count : Nat
  frames : List JvxFrame
  hlMatches : List HlMatch
  brokenModels : List StatusEntry
  allModelStatuses : List StatusEntry
deriving DecidableEq, Repr

/-- The response object assembled right before the first return of
/api/count. -/
def apiCountResponse (jvxFrames : List JvxFrame) (hlMatches : List HlMatch) : ApiResponse :=
  { ok := true
    count := jvxFrames.length
    frames := jvxFrames
    hlMatches := validFilter hlMatches
    brokenModels := collectBroken (validFilter hlMatches)
    allModelStatuses := collectAllStatuses (validFilter hlMatches) }

/-- The tail of the /api/count handler from the validHlMatches filter
onwards: the JS return statement is a throw in the Except monad, and the
whole dead region after the first return (the six-strategy
associateElementsForType resolver and the creatives assembly, ending in a
second res.json) is abstracted as an arbitrary response-producing
computation deadCode. -/
def apiCountTail (jvxFrames : List JvxFrame) (hlMatches : List HlMatch)
    (deadCode : Unit → ApiResponse) : Except ApiResponse Unit := do
  let validHlMatches := validFilter hlMatches
  let brokenModels := collectBroken validHlMatches
  let allModelStatuses := collectAllStatuses validHlMatches
  let response : ApiResponse :=
    { ok := true
      count := jvxFrames.length
      frames := jvxFrames
      hlMatches := validHlMatches
      brokenModels := brokenModels
      allModelStatuses := allModelStatuses }
  throw response
  throw (deadCode ())

/-- C2: the handler always produces exactly the response assembled at the
first return; the code after that return never runs, so no choice of the
dead computation can change the output. -/
theorem first_return_decides_response (jvxFrames : List JvxFrame) (hlMatches : List HlMatch)
    (deadCode : Unit → ApiResponse) :
    apiCountTail jvxFrames hlMatches deadCode =
      Except.error (apiCountResponse jvxFrames hlMatches) := rfl

/-- The regex fallback scanner: matching the pattern id=quote jvxBase_
body quote at the head of the character list, returning the captured id and
the characters after the match. -/
def matchJvxAt (l : List Char) : Option (String × List Char) :=
  match l with
  | 'i' :: 'd' :: '=' :: q1 :: rest =>
    if q1 = '"' ∨ q1 = '\'' then
      if "jvxBase_".toList.isPrefixOf rest then
        let rest2 := rest.drop "jvxBase_".toList.length
        let body := rest2.takeWhile (fun c => !(c = '"' || c = '\''))
        let rest3 := rest2.dropWhile (fun c => !(c = '"' || c = '\''))
        if body.length ≥ 1 then
          match rest3 with
          | q2 :: rest4 => if q2 = '"' ∨ q2 = '\'' then
              some (String.mk ("jvxBase_".toList ++ body), rest4)
            else none
          | [] => none
        else none
      else none
    else none
  | _ => none

/-- The global regex scan (matchAll): fuel bounds the number of scan steps;
every step consumes at least one character, so the initial fuel
l.length + 1 never runs out before the list does. -/
def scanJvxAux : Nat → List Char → List String
  | 0, _ => []
  | _ + 1, [] => []
  | fuel + 1, c :: rest =>
    match matchJvxAt (c :: rest) with
    | some (cap, after) => cap :: scanJvxAux fuel after
    | none => scanJvxAux fuel rest

/-- The ids captured by the fallback regex scan over the raw page HTML. -/
def findJvxIds (html : String) : List String :=
  scanJvxAux (html.toList.length + 1) html.toList

/-- The fallback of server.js lines 1150-1161: when the DOM query found no
marker iframes, the regex scan populates jvxFrames with empty src values. -/
def fallbackFrames (domFrames : List JvxFrame) (html : String) : List JvxFrame :=
  if domFrames.isEmpty then (findJvxIds html).map (fun i => { id := i, src := "" })
  else domFrames

/-- C8: with zero DOM-detected marker iframes and a raw HTML whose regex
scan captures exactly jvxBase_xyz, the response frames are the single entry
with empty src and count is 1; in general count always equals the length of
frames. -/
theorem regex_fallback_populates_frames (html : String) (hl : List HlMatch)
    (h : findJvxIds html = ["jvxBase_xyz"]) :
    (apiCountResponse (fallbackFrames [] html) hl).frames =
      [{ id := "jvxBase_xyz", src := "" }] ∧
    (apiCountResponse (fallbackFrames [] html) hl).count = 1 ∧
    ∀ (dom : List JvxFrame) (html2 : String) (hl2 : List HlMatch),
      (apiCountResponse (fallbackFrames dom html2) hl2).count =
        (apiCountResponse (fallbackFrames dom html2) hl2).frames.length := by
  refine ⟨?_, ?_, ?_⟩
  · show fallbackFrames [] html = _
    unfold fallbackFrames
    rw [if_pos (by rfl), h]
    rfl
  · show (fallbackFrames [] html).length = 1
    unfold fallbackFrames
    rw [if_pos (by rfl), h]
    rfl
  · intro dom html2 hl2
    rfl

/-- Witness for C8 on a concrete page fragment containing exactly one
marker id. -/
theorem regex_fallback_populates_frames_witness :
    findJvxIds "<iframe id=\"jvxBase_xyz\" src=\"/p\"></iframe>" = ["jvxBase_xyz"] ∧
    ((apiCountResponse (fallbackFrames [] "<iframe id=\"jvxBase_xyz\" src=\"/p\"></iframe>") []).frames =
       [{ id := "jvxBase_xyz", src := "" }] ∧
     (apiCountResponse (fallbackFrames [] "<iframe id=\"jvxBase_xyz\" src=\"/p\"></iframe>") []).count = 1 ∧
     ∀ (dom : List JvxFrame) (html2 : String) (hl2 : List HlMatch),
       (apiCountResponse (fallbackFrames dom html2) hl2).count =
         (apiCountResponse (fallbackFrames dom html2) hl2).frames.length) :=
  ⟨by decide, regex_fallback_populates_frames "<iframe id=\"jvxBase_xyz\" src=\"/p\"></iframe>" [] (by decide)⟩

/-! ## The creative-to-element resolver associateElementsForType
(server.js lines 1662-1852; defined after the first return, so reachable
only as a function value). Eight JS parameters become the AssocArgs record,
the mutable usedElementSet becomes an explicit list passed in and returned. -/

/-- One collected element as the resolver sees it (only id and frameUrl are
consulted by the strategies). -/
structure AssocElem where
  id : String
  frameUrl : String
deriving DecidableEq, Repr

/-- The per-jvxBase-iframe element lists (frm1..frm4 HL categories). -/
structure FrameElems where
  frm1 : List AssocElem
  frm2 : List AssocElem
  frm3 : List AssocElem
  frm4 : List AssocElem
deriving DecidableEq, Repr

/-- The arguments of one associateElementsForType call; pfx is the source's
prefix parameter (a Lean reserved word), and the two JS Maps are association
lists. -/
structure AssocArgs where
  titleText : String
  titleFrame : String
  idx : Nat
  containerIndex : Option Nat
  elementType : String
  allElements : List AssocElem
  creativeAssociationsMap : List (String × List String)
  pfx : String
  elementsByJvxBaseId : List (String × FrameElems)
  titleFrameMap : List (String × String)
  previewVariationTitles : List String
deriving DecidableEq, Repr

/-- JS Map.get over an association list. -/
def lookupStr (m : List (String × α)) (k : String) : Option α :=
  (m.find? (fun p => p.1 == k)).map (fun p => p.2)

/-- The string form of containerIndex as it appears in JS template keys. -/
def ciStr : Option Nat → String
  | some n => toString n
  | none => "undefined"

/-- The composite container key titleText__container_N. -/
def containerKeyOf (a : AssocArgs) : String :=
  a.titleText ++ "__container_" ++ ciStr a.containerIndex

/-- The category selection of Strategy 1 on the per-iframe element lists. -/
def frameElemsForType (fe : FrameElems) (et : String) : List AssocElem :=
  if et == "frm1" then fe.frm1
  else if et == "frm2" then fe.frm2
  else if et == "frm3" then fe.frm3
  else if et == "frm4" then fe.frm4
  else []

/-- The elements not yet assigned (the unusedElements snapshot taken at
function entry; no strategy runs after an assignment, so the snapshot stays
accurate whenever it is read). -/
def unusedOf (els : List AssocElem) (used : List String) : List AssocElem :=
  els.filter (fun el => !memId used el.id)

/-- Strategy 1: jvxBase iframe id matching. -/
def strat1 (a : AssocArgs) (used : List String) : Option AssocElem :=
  match lookupStr a.titleFrameMap ("jvxBase_" ++ containerKeyOf a) with
  | some jvxBaseId =>
    if jvxBaseId ≠ "" then
      match lookupStr a.elementsByJvxBaseId jvxBaseId with
      | some fe => (frameElemsForType fe a.elementType).find? (fun el => !memId used el.id)
      | none => none
    else none
  | none => none

/-- Strategy 2: element at the container index. -/
def strat2 (a : AssocArgs) (used : List String) : Option AssocElem :=
  if decide (0 < a.allElements.length) then
    match a.containerIndex with
    | some ci =>
      match a.allElements.get? ci with
      | some el => if !memId used el.id then some el else none
      | none => none
    | none => none
  else none

/-- The inner loop of Strategy 3 over the recorded candidate ids. -/
def strat3Loop (els : List AssocElem) (used : List String) : List String → Option AssocElem
  | [] => none
  | eid :: restIds =>
    match els.find? (fun el => el.id == eid && !memId used el.id) with
    | some el => some el
    | none => strat3Loop els used restIds

/-- Strategy 3: DOM-proximity association recorded per container key. -/
def strat3 (a : AssocArgs) (used : List String) : Option AssocElem :=
  match lookupStr a.creativeAssociationsMap
      (a.titleText ++ "__container_" ++
        (match a.containerIndex with | some ci => toString ci | none => toString a.idx)) with
  | some ids => strat3Loop a.allElements used ids
  | none => none

/-- Strategy 4: numeric pattern matching against the first integer of the
title. -/
def strat4 (a : AssocArgs) (used : List String) : Option AssocElem :=
  match firstNumber a.titleText with
  | none => none
  | some numStr =>
    match (unusedOf a.allElements used).filter
        (fun el => if el.id = "" then false else containsSub el.id numStr) with
    | [] => none
    | matching =>
      match matching.find? (fun el =>
          containsSub el.id ("-" ++ numStr) || containsSub el.id ("_" ++ numStr) ||
          containsSub el.id (numStr ++ "-") || containsSub el.id (numStr ++ "_") ||
          containsSub el.id ("x" ++ numStr) || containsSub el.id (numStr ++ "x") ||
          endsWithStr el.id numStr || containsSub el.id (a.pfx ++ numStr)) with
      | some el => some el
      | none => matching.head?

/-- Strategy 5: same-frame elements by per-frame title index. -/
def strat5 (a : AssocArgs) (used : List String) : Option AssocElem :=
  if a.titleFrame ≠ "" then
    match (unusedOf a.allElements used).filter (fun el => el.frameUrl == a.titleFrame) with
    | [] => none
    | sameFrame =>
      match findIdxJs (fun t => t == a.titleText)
          (a.previewVariationTitles.filter
            (fun t => (lookupStr a.titleFrameMap t).getD "" == a.titleFrame)) with
      | some fti => if sameFrame.length > fti then sameFrame.get? fti else sameFrame.head?
      | none => sameFrame.head?
  else none

/-- Strategy 6: sequential round-robin assignment by the creative's global
index idx. -/
def strat6 (a : AssocArgs) (used : List String) : Option AssocElem :=
  if (unusedOf a.allElements used).isEmpty then none
  else (unusedOf a.allElements used).get? (a.idx % (unusedOf a.allElements used).length)

/-- The ordered strategy chain: the first strategy producing an element
wins. -/
def pickElement (a : AssocArgs) (used : List String) : Option AssocElem :=
  match strat1 a used with
  | some e => some e
  | none =>
    match strat2 a used with
    | some e => some e
    | none =>
      match strat3 a used with
      | some e => some e
      | none =>
        match strat4 a used with
        | some e => some e
        | none =>
          match strat5 a used with
          | some e => some e
          | none => strat6 a used

/-- The final dedup-by-id pass (drops empty ids and repeats). -/
def dedupByIdAux (seen : List String) : List AssocElem → List AssocElem
  | [] => []
  | e :: rest =>
    if !(e.id == "") && !memId seen e.id then e :: dedupByIdAux (seen ++ [e.id]) rest
    else dedupByIdAux seen rest

/-- The finalUniqueElements dedup of associateElementsForType. -/
def dedupById (l : List AssocElem) : List AssocElem := dedupByIdAux [] l

/-- associateElementsForType of server.js: returns the assigned elements for
this container together with the grown used-id set. -/
def associateElementsForType (a : AssocArgs) (used : List String) :
    List AssocElem × List String :=
  match pickElement a used with
  | some e => (dedupById [e], insertId used e.id)
  | none => ([], used)

/-- A sequence of resolver calls threading the request-scoped used-id set. -/
def runAssocCalls : List AssocArgs → List String → List (List AssocElem) × List String
  | [], used => ([], used)
  | a :: rest, used =>
    ((associateElementsForType a used).1 ::
       (runAssocCalls rest (associateElementsForType a used).2).1,
     (runAssocCalls rest (associateElementsForType a used).2).2)

/-! ## Resolver invariants: every strategy only picks unused elements -/

theorem mem_of_head? {l : List α} {a : α} (h : l.head? = some a) : a ∈ l := by
  cases l with
  | nil => simp at h
  | cons x xs =>
    simp only [List.head?_cons, Option.some_inj] at h
    subst h
    exact List.mem_cons_self x xs

theorem mem_unusedOf {els : List AssocElem} {used : List String} {e : AssocElem}
    (h : e ∈ unusedOf els used) : memId used e.id = false := by
  unfold unusedOf at h
  have := (List.mem_filter.mp h).2
  simpa using this

theorem mem_filter_unusedOf {els : List AssocElem} {used : List String}
    {p : AssocElem → Bool} {x : AssocElem}
    (hx : x ∈ (unusedOf els used).filter p) : memId used x.id = false :=
  mem_unusedOf (List.mem_filter.mp hx).1

theorem strat1_unused {a : AssocArgs} {used : List String} {e : AssocElem}
    (h : strat1 a used = some e) : memId used e.id = false := by
  unfold strat1 at h
  split at h
  · split at h
    · split at h
      · have := List.find?_some h
        simpa using this
      · exact Option.noConfusion h
    · exact Option.noConfusion h
  · exact Option.noConfusion h

theorem strat2_unused {a : AssocArgs} {used : List String} {e : AssocElem}
    (h : strat2 a used = some e) : memId used e.id = false := by
  unfold strat2 at h
  split at h
  · split at h
    · split at h
      · split at h
        · rename_i hcond
          injection h with h
          subst h
          simpa using hcond
        · exact Option.noConfusion h
      · exact Option.noConfusion h
    · exact Option.noConfusion h
  · exact Option.noConfusion h

theorem strat3Loop_unused {els : List AssocElem} {used : List String} {e : AssocElem} :
    ∀ {ids : List String}, strat3Loop els used ids = some e → memId used e.id = false := by
  intro ids
  induction ids with
  | nil => intro h; exact Option.noConfusion h
  | cons eid rest ih =>
    intro h
    rw [strat3Loop] at h
    split at h
    · rename_i el hf
      injection h with h
      subst h
      have := List.find?_some hf
      rw [Bool.and_eq_true] at this
      simpa using this.2
    · exact ih h

theorem strat3_unused {a : AssocArgs} {used : List String} {e : AssocElem}
    (h : strat3 a used = some e) : memId used e.id = false := by
  unfold strat3 at h
  split at h
  · exact strat3Loop_unused h
  · exact Option.noConfusion h

theorem strat4_unused {a : AssocArgs} {used : List String} {e : AssocElem}
    (h : strat4 a used = some e) : memId used e.id = false := by
  unfold strat4 at h
  split at h
  · exact Option.noConfusion h
  · split at h
    · exact Option.noConfusion h
    · split at h
      · rename_i el hf
        injection h with h
        subst h
        exact mem_filter_unusedOf (List.mem_of_find?_eq_some hf)
      · exact mem_filter_unusedOf (mem_of_head? h)

theorem strat5_unused {a : AssocArgs} {used : List String} {e : AssocElem}
    (h : strat5 a used = some e) : memId used e.id = false := by
  unfold strat5 at h
  split at h
  · split at h
    · exact Option.noConfusion h
    · split at h
      · split at h
        · exact mem_filter_unusedOf (List.get?_mem h)
        · exact mem_filter_unusedOf (mem_of_head? h)
      · exact mem_filter_unusedOf (mem_of_head? h)
  · exact Option.noConfusion h

theorem strat6_unused {a : AssocArgs} {used : List String} {e : AssocElem}
    (h : strat6 a used = some e) : memId used e.id = false := by
  unfold strat6 at h
  split at h
  · exact Option.noConfusion h
  · exact mem_unusedOf (List.get?_mem h)

theorem pickElement_unused {a : AssocArgs} {used : List String} {e : AssocElem}
    (h : pickElement a used = some e) : memId used e.id = false := by
  unfold pickElement at h
  split at h
  · rename_i e1 h1
    injection h with h
    subst h
    exact strat1_unused h1
  · split at h
    · rename_i e2 h2
      injection h with h
      subst h
      exact strat2_unused h2
    · split at h
      · rename_i e3 h3
        injection h with h
        subst h
        exact strat3_unused h3
      · split at h
        · rename_i e4 h4
          injection h with h
          subst h
          exact strat4_unused h4
        · split at h
          · rename_i e5 h5
            injection h with h
            subst h
            exact strat5_unused h5
          · exact strat6_unused h

theorem dedupByIdAux_subset {e : AssocElem} :
    ∀ {seen : List String} {l : List AssocElem}, e ∈ dedupByIdAux seen l → e ∈ l := by
  intro seen l
  induction l generalizing seen with
  | nil => intro h; cases h
  | cons x xs ih =>
    intro h
    rw [dedupByIdAux] at h
    split at h
    · cases List.mem_cons.mp h with
      | inl h1 => rw [h1]; exact List.mem_cons_self _ _
      | inr h2 => exact List.mem_cons_of_mem _ (ih h2)
    · exact List.mem_cons_of_mem _ (ih h)

theorem assoc_fst_not_used {a : AssocArgs} {used : List String} {e : AssocElem}
    (h : e ∈ (associateElementsForType a used).1) : memId used e.id = false := by
  unfold associateElementsForType at h
  rcases hp : pickElement a used with _ | p
  · rw [hp] at h; cases h
  · rw [hp] at h
    simp only [] at h
    have : e ∈ [p] := dedupByIdAux_subset h
    simp only [List.mem_singleton] at this
    subst this
    exact pickElement_unused hp

theorem assoc_snd_superset {a : AssocArgs} {used : List String} {x : String}
    (h : x ∈ used) : x ∈ (associateElementsForType a used).2 := by
  unfold associateElementsForType
  rcases hp : pickElement a used with _ | p
  · exact h
  · simp only []
    exact (mem_insertId used p.id x).mpr (Or.inl h)

theorem assoc_fst_in_snd {a : AssocArgs} {used : List String} {e : AssocElem}
    (h : e ∈ (associateElementsForType a used).1) :
    e.id ∈ (associateElementsForType a used).2 := by
  unfold associateElementsForType at h ⊢
  rcases hp : pickElement a used with _ | p
  · rw [hp] at h; cases h
  · rw [hp] at h
    simp only [] at h ⊢
    have : e ∈ [p] := dedupByIdAux_subset h
    simp only [List.mem_singleton] at this
    subst this
    exact (mem_insertId used e.id e.id).mpr (Or.inr rfl)

theorem runAssocCalls_unused :
    ∀ (calls : List AssocArgs) (used : List String) (res : List AssocElem),
    res ∈ (runAssocCalls calls used).1 → ∀ e ∈ res, memId used e.id = false := by
  intro calls
  induction calls with
  | nil => intro used res h; cases h
  | cons a rest ih =>
    intro used res h e he
    rw [runAssocCalls] at h
    rcases List.mem_cons.mp h with rfl | h2
    · exact assoc_fst_not_used he
    · have hnext := ih (associateElementsForType a used).2 res h2 e he
      by_cases hmem : memId used e.id = true
      · exfalso
        have : e.id ∈ (associateElementsForType a used).2 :=
          assoc_snd_superset ((memId_iff used e.id).mp hmem)
        rw [(memId_iff _ _).mpr this] at hnext
        cases hnext
      · simpa using hmem

/-- C4: across any sequence of resolver calls threading one request-scoped
used-id set, the element lists returned for distinct containers are
pairwise disjoint by id: no element id is ever assigned twice. -/
theorem resolver_never_reassigns (calls : List AssocArgs) (used0 : List String) :
    List.Pairwise (fun r1 r2 => ∀ e1 ∈ r1, ∀ e2 ∈ r2, e1.id ≠ e2.id)
      (runAssocCalls calls used0).1 := by
  induction calls generalizing used0 with
  | nil => exact List.Pairwise.nil
  | cons a rest ih =>
    rw [runAssocCalls]
    refine List.Pairwise.cons ?_ (ih _)
    intro r2 hr2 e1 he1 e2 he2
    have h1 : e1.id ∈ (associateElementsForType a used0).2 := assoc_fst_in_snd he1
    have h2 : memId (associateElementsForType a used0).2 e2.id = false :=
      runAssocCalls_unused rest _ r2 hr2 e2 he2
    intro heq
    rw [← heq, (memId_iff _ _).mpr h1] at h2
    cases h2

/-! ## The round-robin fallback (Strategy 6) -/

/-- C5 amended: when strategies 1-5 all fail and unused elements remain,
Strategy 6 assigns unusedElements[idx mod unusedElements.length], indexed by
the creative's global index idx (not by containerIndex as the specification
says), so every container receives an element whenever one remains (the
returned list drops it only for an empty id). -/
theorem roundRobin_fallback (a : AssocArgs) (used : List String)
    (h1 : strat1 a used = none) (h2 : strat2 a used = none) (h3 : strat3 a used = none)
    (h4 : strat4 a used = none) (h5 : strat5 a used = none)
    (hne : unusedOf a.allElements used ≠ []) :
    ∃ e, (unusedOf a.allElements used).get?
        (a.idx % (unusedOf a.allElements used).length) = some e ∧
      associateElementsForType a used = (dedupById [e], insertId used e.id) ∧
      (e.id ≠ "" → (associateElementsForType a used).1 = [e]) := by
  have hlen : 0 < (unusedOf a.allElements used).length := List.length_pos.mpr hne
  have hlt : a.idx % (unusedOf a.allElements used).length <
      (unusedOf a.allElements used).length := Nat.mod_lt _ hlen
  obtain ⟨e, he⟩ : ∃ e, (unusedOf a.allElements used).get?
      (a.idx % (unusedOf a.allElements used).length) = some e := by
    rw [List.get?_eq_get hlt]
    exact ⟨_, rfl⟩
  have hempty : ¬((unusedOf a.allElements used).isEmpty = true) := by
    rw [List.isEmpty_iff]
    exact hne
  have h6 : strat6 a used = some e := by
    unfold strat6
    rw [if_neg hempty, he]
  have hpick : pickElement a used = some e := by
    unfold pickElement
    simp only [h1, h2, h3, h4, h5, h6]
  have hded : e.id ≠ "" → dedupById [e] = [e] := by
    intro hid
    unfold dedupById
    rw [dedupByIdAux, if_pos (by simp [memId, hid])]
    rfl
  unfold associateElementsForType
  rw [hpick]
  exact ⟨e, he, rfl, fun hid => hded hid⟩

/-- The concrete resolver call of the C5 scenario: a title with no digits,
no associations, an empty title frame, global index 1 but container index 0,
and one already-used element. -/
def ctrArgs : AssocArgs :=
  { titleText := "NoDigits", titleFrame := "", idx := 1, containerIndex := some 0,
    elementType := "frm1",
    allElements := [{ id := "frm1_HL_used", frameUrl := "" },
                    { id := "frm1_HL_p", frameUrl := "" },
                    { id := "frm1_HL_q", frameUrl := "" }],
    creativeAssociationsMap := [], pfx := "frm1_HL_", elementsByJvxBaseId := [],
    titleFrameMap := [], previewVariationTitles := [] }

/-- Counterexample to C5 as stated: all earlier strategies fail, the claimed
formula unusedElements[containerIndex mod length] selects frm1_HL_p (index
0 mod 2), but the code assigns frm1_HL_q because Strategy 6 indexes by the
global creative index idx = 1. -/
theorem roundRobin_counterexample :
    ctrArgs.containerIndex = some 0 ∧
    (unusedOf ctrArgs.allElements ["frm1_HL_used"]).get?
        (0 % (unusedOf ctrArgs.allElements ["frm1_HL_used"]).length) =
      some { id := "frm1_HL_p", frameUrl := "" } ∧
    (associateElementsForType ctrArgs ["frm1_HL_used"]).1 =
      [{ id := "frm1_HL_q", frameUrl := "" }] ∧
    ({ id := "frm1_HL_q", frameUrl := "" } : AssocElem) ≠
      { id := "frm1_HL_p", frameUrl := "" } :=
  ⟨rfl, by decide, by decide, by decide⟩

/-- Witness for the amended C5 at the concrete scenario. -/
theorem roundRobin_fallback_witness :
    (strat1 ctrArgs ["frm1_HL_used"] = none ∧ strat2 ctrArgs ["frm1_HL_used"] = none ∧
     strat3 ctrArgs ["frm1_HL_used"] = none ∧ strat4 ctrArgs ["frm1_HL_used"] = none ∧
     strat5 ctrArgs ["frm1_HL_used"] = none ∧
     unusedOf ctrArgs.allElements ["frm1_HL_used"] ≠ []) ∧
    (∃ e, (unusedOf ctrArgs.allElements ["frm1_HL_used"]).get?
        (ctrArgs.idx % (unusedOf ctrArgs.allElements ["frm1_HL_used"]).length) = some e ∧
      associateElementsForType ctrArgs ["frm1_HL_used"] =
        (dedupById [e], insertId ["frm1_HL_used"] e.id) ∧
      (e.id ≠ "" → (associateElementsForType ctrArgs ["frm1_HL_used"]).1 = [e])) :=
  ⟨⟨by decide, by decide, by decide, by decide, by decide, by decide⟩,
   roundRobin_fallback ctrArgs ["frm1_HL_used"]
     (by decide) (by decide) (by decide) (by decide) (by decide) (by decide)⟩

end Mazda

